import Mathlib

/-!
Verification of the email gateway core (`zerver/lib/email_mirror.py`).

Python strings are modelled as `List Char`, matching Python 3 `str`
semantics: a string is a sequence of Unicode code points, indexing and
slicing are by code point.  Python byte strings are modelled as `List Nat`.
Exceptions are modelled by `Except`; functions whose Python originals
mutate the redis store return the new store state explicitly, also on the
error path (a raised exception does not roll back side effects).

Configuration (`settings.EMAIL_GATEWAY_PATTERN`) is carried in an explicit
`GatewaySettings` value.  `settings.EMAIL_GATEWAY_EXTRA_PATTERN_HACK` is
modelled as disabled (its default), and the address template is assumed to
follow its documented contract of containing exactly one `%s` placeholder;
the regex built from the template is modelled by literal prefix matching
plus a shortest (non-greedy) capture.

External collaborators (charset decoding, the talon quotation stripper,
HTML-to-markdown conversion, the attachment uploader) are modelled as
function parameters bundled in `ExternalFns`; the database lookups used by
delivery are modelled by explicit repository values.
-/

namespace EmailMirror

/-! ## Python string primitives -/

/-- Whitespace characters recognised by Python `str.strip()` (the ASCII
set; no input in this development uses the additional Unicode spaces). -/
def isPySpace (c : Char) : Bool :=
  c = ' ' || c = '\t' || c = '\n' || c = '\r' || c = '\x0b' || c = '\x0c'

/-- Python `str.lstrip()`. -/
def pyLStrip (l : List Char) : List Char := l.dropWhile isPySpace

/-- Python `str.rstrip()`. -/
def pyRStrip (l : List Char) : List Char := (l.reverse.dropWhile isPySpace).reverse

/-- Python `str.strip()`. -/
def pyStrip (l : List Char) : List Char := pyRStrip (pyLStrip l)

/-- Python `str.lower()` (ASCII case mapping; all names compared by the
code under study are ASCII). -/
def pyLower (l : List Char) : List Char := l.map Char.toLower

/-- Helper for `splitOnChar`: prepend a character to the first piece. -/
def consHead (c : Char) : List (List Char) → List (List Char)
  | [] => [[c]]
  | h :: t => (c :: h) :: t

/-- Python `str.split(sep)` for a single-character separator: splits at
every occurrence of `sep`; `"".split(sep) = [""]`. -/
def splitOnChar (sep : Char) : List Char → List (List Char)
  | [] => [[]]
  | c :: rest =>
    if c = sep then [] :: splitOnChar sep rest
    else consHead c (splitOnChar sep rest)

/-- Python `sep.join(pieces)` for a single-character separator. -/
def joinWithChar (sep : Char) : List (List Char) → List Char
  | [] => []
  | [l] => l
  | l :: ls => l ++ sep :: joinWithChar sep ls

/-- Python `pattern.split("%s")`: split at every (leftmost, non-overlapping)
occurrence of the two-character sequence `%s`. -/
def splitPercentS : List Char → List (List Char)
  | [] => [[]]
  | '%' :: 's' :: rest => [] :: splitPercentS rest
  | c :: rest => consHead c (splitPercentS rest)

/-- Helper: join pieces with a list separator (used to model Python
`%`-formatting of a template whose only directives are `%s`). -/
def joinWithSeq (sep : List Char) : List (List Char) → List Char
  | [] => []
  | [l] => l
  | l :: ls => l ++ sep ++ joinWithSeq sep ls

/-- Python `pattern % (x,)` for a template whose only format directive is
`%s` (the documented contract of `EMAIL_GATEWAY_PATTERN`). -/
def substitutePercentS (pat : List Char) (x : List Char) : List Char :=
  joinWithSeq x (splitPercentS pat)

/-- True iff the two-character sequence `x y` occurs (adjacent) in the list. -/
def hasSub2 (x y : Char) : List Char → Bool
  | [] => false
  | c :: rest => (c = x && rest.head? = some y) || hasSub2 x y rest

/-- Python `text.partition(xy)[0]` for the two-character separator `x y`:
everything strictly before the first occurrence of the pair, or the whole
text when the pair does not occur. -/
def beforeFirst2 (x y : Char) : List Char → List Char
  | [] => []
  | c :: rest =>
    if c = x && rest.head? = some y then []
    else c :: beforeFirst2 x y rest

/-- True iff `needle` occurs as a contiguous subsequence. -/
def containsSeq (needle : List Char) : List Char → Bool
  | [] => needle.isEmpty
  | c :: rest => needle.isPrefixOf (c :: rest) || containsSeq needle rest

/-- Shortest (non-greedy) capture: the shortest prefix `cap` of `s` such
that `p2` starts immediately after `cap`; `none` when `p2` never occurs.
This models the regex fragment `(.*?)` followed by the escaped literal
`p2` under `re.match`. -/
def findCaptureAux (p2 : List Char) : List Char → Option (List Char)
  | [] => if p2.isEmpty then some [] else none
  | c :: rest =>
    if p2.isPrefixOf (c :: rest) then some []
    else (findCaptureAux p2 rest).map (fun cap => c :: cap)

/-! ## Decimal rendering of numbers (Python `str(n)` for a natural `n`) -/

/-- Accumulator/fuel worker for `natDec`. -/
def natDecAux : Nat → Nat → List Char → List Char
  | 0, _, acc => acc
  | fuel + 1, n, acc =>
    let acc' := Char.ofNat (48 + n % 10) :: acc
    if n < 10 then acc' else natDecAux fuel (n / 10) acc'

/-- Python `str(n)` for a natural number: decimal digits, no sign. -/
def natDec (n : Nat) : List Char := natDecAux (n + 1) n []

/-- Python `str.zfill(w)` for an unsigned digit string: left-pad with `'0'`
to width `w` (longer strings are returned unchanged). -/
def zfill (w : Nat) (s : List Char) : List Char :=
  List.replicate (w - s.length) '0' ++ s

/-- Numeric value of an ASCII digit character. -/
def digitVal (c : Char) : Nat := c.toNat - 48

/-! ## The address codec (`encode_email_address_helper` / `decode_email_address`) -/

/-- Word characters of the regex `\W` test used by
`encode_email_address_helper`: alphanumeric or underscore.  (Python's
`\w` additionally matches non-ASCII Unicode word characters; the inputs
of every statement below stay inside the ASCII-agreeing fragment except
for deliberately non-word characters, which both readings escape.) -/
def isWordChar (c : Char) : Bool := c.isAlphanum || c = '_'

/-- Encoding of one stream-name character: word characters are kept,
anything else becomes `%` followed by `str(ord(c)).zfill(4)`.  Models the
`re.sub("\W", ...)` replacement function. -/
def encodeChar (c : Char) : List Char :=
  if isWordChar c then [c] else '%' :: zfill 4 (natDec c.toNat)

/-- The full stream-name encoding `re.sub("\W", lambda x: "%" +
str(ord(x.group(0))).zfill(4), name)`. -/
def encodeName (name : List Char) : List Char := name.flatMap encodeChar

/-- Fuel-indexed worker for `decodeName`; the fuel only serves to make the
recursion structural and is irrelevant as long as it bounds the length of
the input (`decodeNameAux_congr`). -/
def decodeNameAux : Nat → List Char → List Char
  | 0, l => l
  | _, [] => []
  | fuel + 1, c :: rest =>
    if c = '%' then
      match rest with
      | d1 :: d2 :: d3 :: d4 :: rest' =>
        if d1.isDigit && d2.isDigit && d3.isDigit && d4.isDigit then
          Char.ofNat (digitVal d1 * 1000 + digitVal d2 * 100 +
            digitVal d3 * 10 + digitVal d4) :: decodeNameAux fuel rest'
        else c :: decodeNameAux fuel rest
      | _ => c :: decodeNameAux fuel rest
    else c :: decodeNameAux fuel rest

/-- Reverse transformation `re.sub("%\d{4}", lambda x:
unichr(int(x.group(0)[1:])), encoded)`: scan left to right; `%` followed
by exactly four decimal digits is replaced by the character whose code
point those digits denote, anything else is kept; scanning resumes after
a replaced group. -/
def decodeName (l : List Char) : List Char := decodeNameAux l.length l

/-- The deployment configuration consumed by the module
(`settings.EMAIL_GATEWAY_PATTERN`; the extra-pattern hack is modelled as
disabled, see the module comment). -/
structure GatewaySettings where
  emailGatewayPattern : List Char
deriving DecidableEq

/-- The exception `ZulipEmailUnrecognizedAddressError`. -/
structure UnrecognizedAddress where
  msg : List Char
deriving DecidableEq

/-- The Python exceptions observable from the module: the module's own
`ZulipEmailForwardError` and `ZulipEmailUnrecognizedAddressError`, plus
the builtin/ORM exceptions its code can raise. -/
inductive PyError where
  | forwardError (msg : List Char)
  | unrecognizedAddressErr (msg : List Char)
  | valueErr (msg : List Char)
  | streamDoesNotExist
  | multipleObjectsReturned
  | assertionErr (msg : List Char)
deriving DecidableEq

/-- `get_email_gateway_message_string_from_address`: match the address
against the regex built by escaping the `%s`-split parts of the template
and inserting a non-greedy capture; return the capture, or raise
`ZulipEmailUnrecognizedAddressError` on no match.  The model requires the
template to have exactly one placeholder (its documented contract). -/
def get_email_gateway_message_string_from_address (gw : GatewaySettings)
    (address : List Char) : Except UnrecognizedAddress (List Char) :=
  match splitPercentS gw.emailGatewayPattern with
  | [p1, p2] =>
    if p1.isPrefixOf address then
      match findCaptureAux p2 (address.drop p1.length) with
      | some ms => .ok ms
      | none => .error ⟨"No matching address found".data⟩
    else .error ⟨"No matching address found".data⟩
  | _ => .error ⟨"No matching address found".data⟩

/-- `decode_email_address`: extract the local-part capture, split it on
`'.'` when a dot is present (the Google-Groups workaround), otherwise on
`'+'`.  Python's tuple unpacking of `split`'s result raises `ValueError`
unless the chosen separator occurs exactly once.  The name half is then
reverse-transformed by `decodeName`. -/
def decode_email_address (gw : GatewaySettings) (email : List Char) :
    Except PyError (List Char × List Char) :=
  match get_email_gateway_message_string_from_address gw email with
  | .error e => .error (.unrecognizedAddressErr e.msg)
  | .ok ms =>
    if ms.contains '.' then
      match splitOnChar '.' ms with
      | [a, b] => .ok (decodeName a, b)
      | parts =>
        .error (.valueErr (if parts.length < 2 then
          "not enough values to unpack (expected 2, got 1)".data
          else "too many values to unpack (expected 2)".data))
    else
      match splitOnChar '+' ms with
      | [a, b] => .ok (decodeName a, b)
      | parts =>
        .error (.valueErr (if parts.length < 2 then
          "not enough values to unpack (expected 2, got 1)".data
          else "too many values to unpack (expected 2)".data))

/-- `encode_email_address_helper`: empty template means the gateway is
disabled and yields the empty address; otherwise the encoded name plus
`"+" + token` is substituted into the template. -/
def encode_email_address_helper (gw : GatewaySettings)
    (name email_token : List Char) : List Char :=
  if gw.emailGatewayPattern = [] then []
  else
    substitutePercentS gw.emailGatewayPattern
      (encodeName name ++ '+' :: email_token)

/-- `is_mm_32_format`: a missed-message local part is `mm` followed by a
32-character token (34 characters in total). -/
def is_mm_32_format (msg_string : Option (List Char)) : Bool :=
  match msg_string with
  | none => false
  | some s => ['m', 'm'].isPrefixOf s && s.length = 34

/-- `is_missed_message_address`: `True`/`False` when the address matches
the gateway template, and `None` (not `False`) when
`ZulipEmailUnrecognizedAddressError` is caught.  The Python signature
declares `bool`, so the result is modelled as `Option Bool`. -/
def is_missed_message_address (gw : GatewaySettings) (address : List Char) :
    Option Bool :=
  match get_email_gateway_message_string_from_address gw address with
  | .ok ms => some (is_mm_32_format (some ms))
  | .error _ => none

/-- Python truthiness of a `bool`-or-`None` value, as used by
`if is_missed_message_address(to):`. -/
def optTruthy : Option Bool → Bool
  | none => false
  | some b => b

/-- `get_missed_message_token_from_address`: the capture must be in
`mm`-format; its first two characters are stripped off.  Both failure
modes raise `ZulipEmailForwardError`. -/
def get_missed_message_token_from_address (gw : GatewaySettings)
    (address : List Char) : Except PyError (List Char) :=
  match get_email_gateway_message_string_from_address gw address with
  | .error _ => .error (.forwardError "Address not recognized by gateway.".data)
  | .ok ms =>
    if is_mm_32_format (some ms) then .ok (ms.drop 2)
    else .error (.forwardError "Could not parse missed message address".data)

/-! ## The missed-message token store (redis) -/

/-- One redis hash as used by the module: the fields written by
`create_missed_message_address` and read by
`send_to_missed_message_address` / `mark_missed_message_address_as_used`.
Absent fields are `none`. -/
structure RedisHash where
  uses_left : Option Int := none
  user_profile_id : Option (List Char) := none
  recipient_id : Option (List Char) := none
  subject : Option (List Char) := none
deriving DecidableEq, Inhabited

/-- The redis keyspace: an association list from key to hash (first
binding wins).  Key TTLs are not modelled; no claim under study depends
on expiry timing. -/
def RedisState : Type := List (List Char × RedisHash)

instance : DecidableEq RedisState := by
  unfold RedisState
  infer_instance

/-- Look up a key. -/
def redisGet : RedisState → List Char → Option RedisHash
  | [], _ => none
  | kv :: rest, key => if kv.1 = key then some kv.2 else redisGet rest key

/-- Delete a key (redis `DEL`). -/
def redisDel : RedisState → List Char → RedisState
  | [], _ => []
  | kv :: rest, key =>
    if kv.1 = key then redisDel rest key else kv :: redisDel rest key

/-- Bind a key to a hash (overwriting any previous binding). -/
def redisSet (st : RedisState) (key : List Char) (h : RedisHash) : RedisState :=
  (key, h) :: redisDel st key

/-- `missed_message_redis_key`. -/
def missed_message_redis_key (token : List Char) : List Char :=
  "missed_message:".data ++ token

/-- `mark_missed_message_address_as_used`: `HINCRBY key uses_left -1`
(which creates the key/field at `0` first when absent), read the
post-decrement value, and when it is negative delete the record and raise
`ZulipEmailForwardError`.  The state is returned also on the error path:
raising does not undo the decrement/delete. -/
def mark_missed_message_address_as_used (gw : GatewaySettings)
    (st : RedisState) (address : List Char) :
    Except PyError Unit × RedisState :=
  match get_missed_message_token_from_address gw address with
  | .error e => (.error e, st)
  | .ok token =>
    let key := missed_message_redis_key token
    let h := (redisGet st key).getD {}
    let newValue : Int := h.uses_left.getD 0 - 1
    let st' := redisSet st key { h with uses_left := some newValue }
    if newValue < 0 then
      (.error (.forwardError "Missed message address has already been used".data),
       redisDel st' key)
    else (.ok (), st')

/-! ## The MIME message model and the content extractor -/

/-- A parsed MIME part tree (`email.message.Message`): a leaf carries
decoded payload bytes (`get_payload(decode=True)`), a multipart node
carries its immediate subparts.  Each node has its content type (as
normalised by `get_content_type`), its declared charset
(`get_content_charset`, `none` when undeclared) and its filename
(`get_filename`). -/
inductive MimeMsg where
  | leaf (contentType : List Char) (charset : Option (List Char))
      (filename : Option (List Char)) (payload : List Nat)
  | multi (contentType : List Char) (charset : Option (List Char))
      (filename : Option (List Char)) (parts : List MimeMsg)

/-- Content type of a part. -/
def MimeMsg.contentType : MimeMsg → List Char
  | .leaf ct _ _ _ => ct
  | .multi ct _ _ _ => ct

/-- Declared charset of a part. -/
def MimeMsg.charset : MimeMsg → Option (List Char)
  | .leaf _ cs _ _ => cs
  | .multi _ cs _ _ => cs

/-- Filename of a part. -/
def MimeMsg.filename : MimeMsg → Option (List Char)
  | .leaf _ _ fn _ => fn
  | .multi _ _ fn _ => fn

/-- `get_payload(decode=True)`: decoded bytes for a non-multipart part,
`None` for a multipart container. -/
def MimeMsg.payloadBytes : MimeMsg → Option (List Nat)
  | .leaf _ _ _ b => some b
  | .multi _ _ _ _ => none

mutual

/-- `Message.walk()`: depth-first traversal, the part itself first, then
its subparts recursively. -/
def MimeMsg.walk : MimeMsg → List MimeMsg
  | .leaf ct cs fn b => [.leaf ct cs fn b]
  | .multi ct cs fn parts => .multi ct cs fn parts :: MimeMsg.walkAll parts

/-- `walk` mapped over a list of parts. -/
def MimeMsg.walkAll : List MimeMsg → List MimeMsg
  | [] => []
  | p :: ps => p.walk ++ MimeMsg.walkAll ps

end

/-- The external collaborators of the content extractor, bundled:
byte-string decoding with a declared charset and `errors="ignore"`
(total), the talon plaintext and HTML quotation strippers,
`convert_html_to_markdown`, and `upload_message_image` (filename, size,
content type, payload, realm → URL). -/
structure ExternalFns where
  decodeCharset : List Char → List Nat → List Char
  extractFromPlain : List Char → List Char
  extractFromHtml : List Char → List Char
  convertHtmlToMarkdown : List Char → List Char
  upload : List Char → Nat → List Char → List Nat → List Char → List Char

/-- Worker for `get_message_part_by_type`: scan the `walk()` list in
order; on the first part whose content type matches, take its decoded
payload (the source asserts it is `bytes`: a multipart container
matching the type raises `AssertionError`), and return it decoded when
the part's charset entry is truthy; with a falsy charset the loop
continues with the next part. -/
def findPartByType (ext : ExternalFns) (ct : List Char) :
    List MimeMsg → Except PyError (Option (List Char))
  | [] => .ok none
  | p :: rest =>
    if p.contentType = ct then
      match p.payloadBytes with
      | none => .error (.assertionErr "payload is not bytes".data)
      | some bytes =>
        match p.charset with
        | some cs =>
          if cs ≠ [] then .ok (some (ext.decodeCharset cs bytes))
          else findPartByType ext ct rest
        | none => findPartByType ext ct rest
    else findPartByType ext ct rest

/-- `get_message_part_by_type`. -/
def get_message_part_by_type (ext : ExternalFns) (msg : MimeMsg)
    (content_type : List Char) : Except PyError (Option (List Char)) :=
  findPartByType ext content_type msg.walk

/-- Python truthiness of an optional string (`None` and `""` are falsy). -/
def strTruthy : Option (List Char) → Bool
  | none => false
  | some s => s ≠ []

/-- `extract_body`: prefer a truthy plaintext part (quotation-stripped by
talon); otherwise a truthy HTML part (quotation-stripped, converted to
markdown); otherwise raise `ZulipEmailForwardError`. -/
def extract_body (ext : ExternalFns) (msg : MimeMsg) :
    Except PyError (List Char) :=
  match get_message_part_by_type ext msg "text/plain".data with
  | .error e => .error e
  | .ok plaintext_content =>
    if strTruthy plaintext_content then
      .ok (ext.extractFromPlain (plaintext_content.getD []))
    else
      match get_message_part_by_type ext msg "text/html".data with
      | .error e => .error e
      | .ok html_content =>
        if strTruthy html_content then
          .ok (ext.convertHtmlToMarkdown (ext.extractFromHtml (html_content.getD [])))
        else
          .error (.forwardError "Unable to find plaintext or HTML message body".data)

/-- `filter_footer`: the candidate footers are the lines whose stripped
form starts with `--`; content is only scrubbed when there is exactly one
candidate, and then the text is cut at the first occurrence of the
substring `--` anywhere (`text.partition("--")[0].strip()`). -/
def filter_footer (text : List Char) : List Char :=
  let possible_footers :=
    (splitOnChar '\n' text).filter (fun line => ['-', '-'].isPrefixOf (pyStrip line))
  if possible_footers.length ≠ 1 then text
  else pyStrip (beforeFirst2 '-' '-' text)

/-- `extract_and_upload_attachments`: non-multipart messages contribute
nothing; every immediate child part with a truthy filename and a
bytes-decodable payload is uploaded and rendered as a markdown link
(parts whose payload is not bytes are skipped with a warning); the links
are newline-joined in source order. -/
def extract_and_upload_attachments (ext : ExternalFns) (msg : MimeMsg)
    (realm : List Char) : List Char :=
  match msg with
  | .leaf _ _ _ _ => []
  | .multi _ _ _ parts =>
    let links := parts.flatMap (fun part =>
      match part.filename with
      | some fname =>
        if fname ≠ [] then
          match part.payloadBytes with
          | some attachment =>
            ['[' :: fname ++ "](".data ++
              ext.upload fname attachment.length part.contentType attachment realm
              ++ [')']]
          | none => []
        else []
      | none => [])
    joinWithChar '\n' links

/-- `construct_zulip_body`: extracted body with null bytes removed,
footer-filtered, attachment links appended, stripped; an empty result is
replaced by the placeholder. -/
def construct_zulip_body (ext : ExternalFns) (msg : MimeMsg)
    (realm : List Char) : Except PyError (List Char) :=
  match extract_body ext msg with
  | .error e => .error e
  | .ok body0 =>
    let body1 := body0.filter (fun c => c ≠ '\x00')
    let body2 := filter_footer body1
    let body3 := body2 ++ extract_and_upload_attachments ext msg realm
    let body4 := pyStrip body3
    .ok (if body4 = [] then "(No email body)".data else body4)

/-! ## Streams, recipients, and the dispatch state machine -/

/-- Decidable equality for `Except` results (used to evaluate concrete
pipeline runs). -/
instance {ε α : Type} [DecidableEq ε] [DecidableEq α] : DecidableEq (Except ε α) := fun
  | .ok a, .ok b =>
    if h : a = b then .isTrue (by rw [h])
    else .isFalse (by intro hc; cases hc; exact h rfl)
  | .ok _, .error _ => .isFalse (by intro hc; cases hc)
  | .error _, .ok _ => .isFalse (by intro hc; cases hc)
  | .error e, .error f =>
    if h : e = f then .isTrue (by rw [h])
    else .isFalse (by intro hc; cases hc; exact h rfl)

/-- The fields of a `Stream` row used by the module. -/
structure StreamRec where
  name : List Char
  email_token : List Char
  realm : List Char
deriving DecidableEq

/-- The stream table, standing for `Stream.objects`. -/
def StreamRepo : Type := List StreamRec

/-- `Stream.objects.get(email_token=token)`: exactly one matching row, or
`Stream.DoesNotExist` / `MultipleObjectsReturned`. -/
def streamGetByToken (repo : StreamRepo) (token : List Char) :
    Except PyError StreamRec :=
  match repo.filter (fun s => s.email_token = token) with
  | [s] => .ok s
  | [] => .error .streamDoesNotExist
  | _ => .error .multipleObjectsReturned

/-- `valid_stream`: look the stream up by token; absent means invalid;
otherwise compare names case-insensitively. -/
def valid_stream (repo : StreamRepo) (stream_name token : List Char) :
    Except PyError Bool :=
  match streamGetByToken repo token with
  | .ok stream => .ok (pyLower stream.name = pyLower stream_name)
  | .error .streamDoesNotExist => .ok false
  | .error e => .error e

/-- `extract_and_validate`: decode the address (the source's
`if temp is None` guard is dead code, since `decode_email_address` raises
rather than returning `None`), check the token/name pair, and return the
stream row. -/
def extract_and_validate (gw : GatewaySettings) (repo : StreamRepo)
    (email : List Char) : Except PyError StreamRec :=
  match decode_email_address gw email with
  | .error e => .error e
  | .ok (stream_name, token) =>
    match valid_stream repo stream_name token with
    | .error e => .error e
    | .ok ok =>
      if ok then streamGetByToken repo token
      else .error (.forwardError ("Bad stream token from email recipient ".data ++ email))

/-- An inbound email: its headers (an ordered multimap, looked up
case-insensitively like `email.message.Message`) and its MIME part tree. -/
structure EmailMessage where
  headers : List (List Char × List Char)
  mime : MimeMsg

/-- `Message.get_all(name)` (case-insensitive header-name match), with
`None` collapsed to the empty list, matching the `if r:` truthiness test
at the use site. -/
def headerGetAll (headers : List (List Char × List Char)) (name : List Char) :
    List (List Char) :=
  (headers.filter (fun kv => pyLower kv.1 = pyLower name)).map (fun kv => kv.2)

/-- `Message.get(name)`: first value of the header, if any. -/
def headerGet (headers : List (List Char × List Char)) (name : List Char) :
    Option (List Char) :=
  (headers.find? (fun kv => pyLower kv.1 = pyLower name)).map (fun kv => kv.2)

/-- Boolean form of matching a recipient value against the gateway
pattern regex (`".*?".join(escaped parts)` under `re.match`): the value
must start with the first literal part and contain the second one
somewhere after it. -/
def matchesGatewayPattern (gw : GatewaySettings) (addr : List Char) : Bool :=
  match splitPercentS gw.emailGatewayPattern with
  | [p1, p2] => p1.isPrefixOf addr && containsSeq p2 (addr.drop p1.length)
  | _ => false

/-- The recipient-candidate selection loop of
`find_emailgateway_recipient`: the value list of the first header of
`["X-Gm-Original-To", "Delivered-To", "To"]` that is present with a
non-empty value list (`break` after the first hit); empty when no header
is present. -/
def pickRecipients (msg : EmailMessage) : List (List Char) :=
  let r1 := headerGetAll msg.headers "X-Gm-Original-To".data
  if r1 ≠ [] then r1
  else
    let r2 := headerGetAll msg.headers "Delivered-To".data
    if r2 ≠ [] then r2
    else headerGetAll msg.headers "To".data

/-- `find_emailgateway_recipient`: first value of the selected header
list that matches the gateway pattern; `ZulipEmailForwardError` when the
selected list holds no match (values of lower-priority headers are never
examined). -/
def find_emailgateway_recipient (gw : GatewaySettings) (msg : EmailMessage) :
    Except PyError (List Char) :=
  match (pickRecipients msg).find? (fun r => matchesGatewayPattern gw r) with
  | some r => .ok r
  | none => .error (.forwardError "Missing recipient in mirror email".data)

/-- The shape of a missed-message recipient
(`Recipient.STREAM`/`PERSONAL`/`HUDDLE`, plus the invalid-type case the
source guards with an `AssertionError`). -/
inductive RecipientKind where
  | stream (displayName : List Char)
  | personal (email : List Char)
  | huddle (emails : List (List Char))
  | invalid
deriving DecidableEq

/-- The database rows consulted by missed-message delivery:
`get_user_profile_by_id` (only its realm is used by the model) and
`Recipient.objects.get` plus `get_display_recipient`. -/
structure DeliveryEnv where
  userRealm : List Char → Option (List Char)
  recipient : List Char → Option RecipientKind

/-- Observable result of a successful dispatch: which delivery call was
made with which payload, or the log-and-report path of the outer
`except ZulipEmailForwardError` handler. -/
inductive ProcessOutcome where
  | sentToStream (stream : StreamRec) (topic : List Char) (body : List Char)
  | sentToMissedMessage (kind : RecipientKind) (subject : List Char) (body : List Char)
  | loggedError (errMsg : List Char)
deriving DecidableEq

/-- `send_zulip`: delivery into a stream with the topic truncated to 60
characters and the content to 2000. -/
def send_zulip (stream : StreamRec) (topic content : List Char) : ProcessOutcome :=
  .sentToStream stream (topic.take 60) (content.take 2000)

/-- `process_stream_message`: validate the address, build the body, and
deliver into the stream. -/
def process_stream_message (gw : GatewaySettings) (repo : StreamRepo)
    (ext : ExternalFns) (toAddr subject : List Char) (msg : EmailMessage) :
    Except PyError ProcessOutcome :=
  match extract_and_validate gw repo toAddr with
  | .error e => .error e
  | .ok stream =>
    match construct_zulip_body ext msg.mime stream.realm with
    | .error e => .error e
    | .ok body => .ok (send_zulip stream subject body)

/-- `send_to_missed_message_address`: read the three stored fields
(`HMGET`; any absent field raises `ZulipEmailForwardError`), resolve user
and recipient rows, build the body, and deliver according to the
recipient's kind (an unknown kind raises `AssertionError`). -/
def send_to_missed_message_address (gw : GatewaySettings)
    (ext : ExternalFns) (env : DeliveryEnv) (st : RedisState)
    (address : List Char) (msg : EmailMessage) :
    Except PyError ProcessOutcome :=
  match get_missed_message_token_from_address gw address with
  | .error e => .error e
  | .ok token =>
    let h := (redisGet st (missed_message_redis_key token)).getD {}
    match h.user_profile_id, h.recipient_id, h.subject with
    | some upId, some rcptId, some subject =>
      match env.userRealm upId with
      | none => .error .streamDoesNotExist
      | some realm =>
        match env.recipient rcptId with
        | none => .error .streamDoesNotExist
        | some kind =>
          match construct_zulip_body ext msg.mime realm with
          | .error e => .error e
          | .ok body =>
            match kind with
            | .invalid => .error (.assertionErr "Invalid recipient type!".data)
            | k => .ok (.sentToMissedMessage k subject body)
    | _, _, _ => .error (.forwardError "Missing missed message address data".data)

/-- `process_missed_message`: consume the token first unless the caller
already validated the address in the synchronous phase. -/
def process_missed_message (gw : GatewaySettings) (ext : ExternalFns)
    (env : DeliveryEnv) (st : RedisState) (toAddr : List Char)
    (msg : EmailMessage) (pre_checked : Bool) :
    Except PyError ProcessOutcome × RedisState :=
  if pre_checked then
    (send_to_missed_message_address gw ext env st toAddr msg, st)
  else
    match mark_missed_message_address_as_used gw st toAddr with
    | (.error e, st') => (.error e, st')
    | (.ok _, st') => (send_to_missed_message_address gw ext env st' toAddr msg, st')

/-- The classify-and-dispatch step inside `process_message`'s `try`
block: a truthy `is_missed_message_address` routes to the missed-message
flow, anything else (including the `None` of an unrecognized address) to
the stream flow. -/
def dispatchTo (gw : GatewaySettings) (repo : StreamRepo) (ext : ExternalFns)
    (env : DeliveryEnv) (st : RedisState) (msg : EmailMessage)
    (subject toAddr : List Char) (pre_checked : Bool) :
    Except PyError ProcessOutcome × RedisState :=
  if optTruthy (is_missed_message_address gw toAddr) then
    process_missed_message gw ext env st toAddr msg pre_checked
  else
    (process_stream_message gw repo ext toAddr subject msg, st)

/-- The `except ZulipEmailForwardError` boundary of `process_message`:
that error is logged and reported (`log_and_report`), every other
exception propagates to the caller. -/
def catchForwardErr (r : Except PyError ProcessOutcome) :
    Except PyError ProcessOutcome :=
  match r with
  | .error (.forwardError m) => .ok (.loggedError m)
  | r => r

/-- The subject line used by `process_message` (header decoding by
`email.header.decode_header` is external and modelled as the identity;
an absent header yields the documented default). -/
def subjectOf (msg : EmailMessage) : List Char :=
  (headerGet msg.headers "Subject".data).getD "(no subject)".data

/-- `process_message`: resolve the recipient (explicit `rcpt_to` or
header scan), classify, dispatch, and catch `ZulipEmailForwardError` at
the boundary. -/
def process_message (gw : GatewaySettings) (repo : StreamRepo)
    (ext : ExternalFns) (env : DeliveryEnv) (st : RedisState)
    (msg : EmailMessage) (rcpt_to : Option (List Char)) (pre_checked : Bool) :
    Except PyError ProcessOutcome × RedisState :=
  let subject := subjectOf msg
  let inner : Except PyError ProcessOutcome × RedisState :=
    match rcpt_to with
    | some toAddr => dispatchTo gw repo ext env st msg subject toAddr pre_checked
    | none =>
      match find_emailgateway_recipient gw msg with
      | .ok toAddr => dispatchTo gw repo ext env st msg subject toAddr pre_checked
      | .error e => (.error e, st)
  (catchForwardErr inner.1, inner.2)

/-- Result of the synchronous phase `mirror_email_message`: the success
dictionary together with the payload handed to `queue_json_publish`, the
error dictionary, or an uncaught exception. -/
inductive MirrorResult where
  | success (queuedMsgText queuedRcptTo : List Char)
  | errorResult (msg : List Char)
  | raised (e : PyError)
deriving DecidableEq

/-- `mirror_email_message` (the synchronous phase of the two-phase
protocol): for a missed-message recipient, consume the token now
(`mark_missed_message_address_as_used`), rejecting the email when that
raises `ZulipEmailForwardError`; for any other recipient, run
`extract_and_validate` and reject on `ZulipEmailForwardError`; then
enqueue the raw message for deferred processing. -/
def mirror_email_message (gw : GatewaySettings) (repo : StreamRepo)
    (st : RedisState) (recipient msg_text : List Char) :
    MirrorResult × RedisState :=
  if optTruthy (is_missed_message_address gw recipient) then
    match mark_missed_message_address_as_used gw st recipient with
    | (.ok _, st') => (.success msg_text recipient, st')
    | (.error (.forwardError _), st') =>
      (.errorResult ("5.1.1 Bad destination mailbox address: ".data ++
        "Bad or expired missed message address.".data), st')
    | (.error e, st') => (.raised e, st')
  else
    match extract_and_validate gw repo recipient with
    | .ok _ => (.success msg_text recipient, st)
    | .error (.forwardError _) =>
      (.errorResult ("5.1.1 Bad destination mailbox address: ".data ++
        "Please use the address specified in your Streams page.".data), st)
    | .error e => (.raised e, st)

/-! ## Specification-side definitions (for refinement comparison only) -/

/-- Modelled from the spec's words for `filterFooter` (§4.3): when exactly
one line's trimmed form starts with `--`, "return everything strictly
before that line, trimmed"; otherwise return the text unchanged.  This
definition follows the specification text, not the source, and exists
only to be compared against `filter_footer`. -/
def filterFooterSpec (text : List Char) : List Char :=
  let lines := splitOnChar '\n' text
  let isFooterLine := fun l => ['-', '-'].isPrefixOf (pyStrip l)
  if (lines.filter isFooterLine).length = 1 then
    pyStrip (joinWithChar '\n' (lines.takeWhile (fun l => !(isFooterLine l))))
  else text

/-! ## Concrete fixtures used by witnesses and counterexamples -/

/-- A deployment configured with the spec's example template. -/
def gwEx : GatewaySettings := ⟨"%s@example.com".data⟩

/-- Concrete external collaborators: Latin-1-style byte decoding,
identity quotation stripping and markup conversion, a constant uploader. -/
def extEx : ExternalFns :=
  { decodeCharset := fun _ bs => bs.map Char.ofNat
    extractFromPlain := id
    extractFromHtml := id
    convertHtmlToMarkdown := id
    upload := fun _ _ _ _ _ => "URL".data }

/-- Concrete delivery environment. -/
def envEx : DeliveryEnv :=
  ⟨fun _ => some "realm".data, fun _ => some (.personal "user@example.com".data)⟩

/-- A 32-character token as produced by `generate_random_token(32)`. -/
def tokEx : List Char := "abcdefghijklmnopqrstuvwxyz012345".data

/-- The missed-message address carrying `tokEx`. -/
def mmAddrEx : List Char := "mm".data ++ tokEx ++ "@example.com".data

/-- A fresh missed-message record (`uses_left = 1`). -/
def freshHashEx : RedisHash :=
  { uses_left := some 1
    user_profile_id := some "7".data
    recipient_id := some "9".data
    subject := some "subj".data }

/-- A store holding exactly the fresh record for `tokEx`. -/
def stEx : RedisState := [(missed_message_redis_key tokEx, freshHashEx)]

/-- A minimal plaintext email. -/
def plainMsgEx : EmailMessage :=
  ⟨[], .leaf "text/plain".data (some "us-ascii".data) none [72, 105]⟩

/-- Headers where the high-priority header is present but does not match
the gateway pattern while `To` does. -/
def hdrMsgEx : EmailMessage :=
  ⟨[("X-Gm-Original-To".data, "nomatch@other.org".data),
    ("To".data, "general+tok@example.com".data)],
   .leaf "text/plain".data none none []⟩

/-- Headers where only `To` is present and matches. -/
def hdrMsgEx2 : EmailMessage :=
  ⟨[("To".data, "general+tok@example.com".data)],
   .leaf "text/plain".data none none []⟩

/-- A multipart/alternative message whose plaintext part decodes to the
empty string while its HTML part decodes to `"Hi"`. -/
def msgC8 : MimeMsg :=
  .multi "multipart/alternative".data none none
    [.leaf "text/plain".data (some "us-ascii".data) none [],
     .leaf "text/html".data (some "us-ascii".data) none [72, 105]]

/-- A multipart/alternative message with a non-empty plaintext part. -/
def msgC8w : MimeMsg :=
  .multi "multipart/alternative".data none none
    [.leaf "text/plain".data (some "us-ascii".data) none [72, 101, 108, 108, 111],
     .leaf "text/html".data (some "us-ascii".data) none [72, 105]]

/-! ## Helper lemmas: the redis association-list store -/

theorem redisGet_del_ne (st : RedisState) (k k' : List Char) (hne : k' ≠ k) :
    redisGet (redisDel st k) k' = redisGet st k' := by
  induction st with
  | nil => rfl
  | cons kv rest ih =>
    rw [redisDel]
    by_cases hk : kv.1 = k
    · have hk' : ¬(kv.1 = k') := by rw [hk]; exact fun hc => hne hc.symm
      rw [if_pos hk, ih, redisGet, if_neg hk']
    · rw [if_neg hk, redisGet, redisGet]
      by_cases hk2 : kv.1 = k'
      · rw [if_pos hk2, if_pos hk2]
      · rw [if_neg hk2, if_neg hk2, ih]

theorem redisGet_del_self (st : RedisState) (k : List Char) :
    redisGet (redisDel st k) k = none := by
  induction st with
  | nil => rfl
  | cons kv rest ih =>
    rw [redisDel]
    by_cases hk : kv.1 = k
    · rw [if_pos hk, ih]
    · rw [if_neg hk, redisGet, if_neg hk, ih]

theorem redisGet_set_self (st : RedisState) (k : List Char) (h : RedisHash) :
    redisGet (redisSet st k h) k = some h := by
  rw [redisSet, redisGet, if_pos rfl]

theorem redisGet_set_ne (st : RedisState) (k k' : List Char) (h : RedisHash)
    (hne : k' ≠ k) : redisGet (redisSet st k h) k' = redisGet st k' := by
  have hkk : ¬(k = k') := fun hc => hne hc.symm
  rw [redisSet, redisGet, if_neg hkk, redisGet_del_ne st k k' hne]

/-! ## C9 -/

/-- C9: for every email, a successfully assembled `construct_zulip_body`
result is never the empty string: after null-byte stripping, footer
filtering, attachment-link concatenation and trimming, an empty result is
replaced by the literal placeholder `"(No email body)"`. -/
theorem c9_body_nonempty (ext : ExternalFns) (msg : MimeMsg) (realm : List Char)
    (b : List Char) (h : construct_zulip_body ext msg realm = .ok b) : b ≠ [] := by
  revert h
  simp only [construct_zulip_body]
  cases extract_body ext msg with
  | error e => intro h; cases h
  | ok body0 =>
    intro h
    simp only [Except.ok.injEq] at h
    subst h
    split
    · decide
    · next hne => exact hne

/-- Witness for C9 at a concrete whitespace-only email (the placeholder
branch fires). -/
theorem c9_body_nonempty_witness :
    construct_zulip_body extEx (.leaf "text/plain".data (some "us-ascii".data) none [32])
        "realm".data = .ok "(No email body)".data ∧
    "(No email body)".data ≠ ([] : List Char) :=
  ⟨rfl, c9_body_nonempty extEx (.leaf "text/plain".data (some "us-ascii".data) none [32])
      "realm".data "(No email body)".data rfl⟩

/-! ## C2 -/

/-- C2: the claim states that `process_message` catches every error
raised inside dispatch and never lets any exception propagate.  The code
only catches `ZulipEmailForwardError`; evaluating `process_message` at an
explicit recipient address that does not match the gateway template shows
`ZulipEmailUnrecognizedAddressError` escaping to the caller (the dead
`if temp is None` guard in `extract_and_validate` shows the propagation
was not intended). -/
theorem c2_uncaught_error_eval :
    process_message gwEx [] extEx envEx [] plainMsgEx
        (some "bad@other.org".data) false =
      (.error (.unrecognizedAddressErr "No matching address found".data),
       ([] : RedisState)) := rfl

/-! ## C10 -/

/-- C10: `is_missed_message_address` never raises: for every address that
does not match the configured gateway template it catches the
unrecognized-address error and returns `None` (falsy, distinct from
`False`), so `process_message` routes every such address into the stream
flow. -/
theorem c10_is_missed_message_address_none (gw : GatewaySettings)
    (addr : List Char) (e : UnrecognizedAddress)
    (h : get_email_gateway_message_string_from_address gw addr = .error e) :
    is_missed_message_address gw addr = none ∧
    is_missed_message_address gw addr ≠ some false ∧
    optTruthy (is_missed_message_address gw addr) = false ∧
    ∀ repo ext env st msg pre_checked,
      process_message gw repo ext env st msg (some addr) pre_checked =
        (catchForwardErr
          (process_stream_message gw repo ext addr (subjectOf msg) msg), st) := by
  have h1 : is_missed_message_address gw addr = none := by
    unfold is_missed_message_address
    rw [h]
  refine ⟨h1, ?_, ?_, ?_⟩
  · rw [h1]
    intro hc
    cases hc
  · rw [h1]
    rfl
  · intro repo ext env st msg pre_checked
    simp only [process_message, dispatchTo, h1, optTruthy, Bool.false_eq_true,
      if_false]

/-- Witness for C10 at a concrete non-matching address. -/
theorem c10_is_missed_message_address_none_witness :
    is_missed_message_address gwEx "bad@other.org".data = none :=
  (c10_is_missed_message_address_none gwEx "bad@other.org".data
    ⟨"No matching address found".data⟩ rfl).1

/-! ## C3 -/

/-- C3 counterexample: the claim states the synchronous validation phase
(`mirror_email_message`) has no side effects and never consumes a
missed-message token.  On a fresh missed-message address the call
decrements `uses_left` from 1 to 0 and changes the store. -/
theorem c3_counterexample :
    (mirror_email_message gwEx [] stEx mmAddrEx "raw message".data).2 ≠ stEx ∧
    (redisGet (mirror_email_message gwEx [] stEx mmAddrEx "raw message".data).2
        (missed_message_redis_key tokEx)).map RedisHash.uses_left =
      some (some 0) ∧
    (redisGet stEx (missed_message_redis_key tokEx)).map RedisHash.uses_left =
      some (some 1) := by
  refine ⟨by decide, rfl, rfl⟩

/-- C3 (amended): the synchronous phase performs only pattern/existence
checks for stream addresses (the store is untouched); for a
missed-message address it consumes the token at validation time — its
store effect is exactly that of `mark_missed_message_address_as_used` —
which is why deferred processing is invoked with the already-validated
flag. -/
theorem c3_sync_phase_effects (gw : GatewaySettings) (repo : StreamRepo)
    (st : RedisState) (recipient msg_text : List Char) :
    (optTruthy (is_missed_message_address gw recipient) = false →
      (mirror_email_message gw repo st recipient msg_text).2 = st) ∧
    (optTruthy (is_missed_message_address gw recipient) = true →
      (mirror_email_message gw repo st recipient msg_text).2 =
        (mark_missed_message_address_as_used gw st recipient).2) := by
  constructor
  · intro hfalse
    simp only [mirror_email_message, hfalse, Bool.false_eq_true, if_false]
    cases extract_and_validate gw repo recipient with
    | ok s => rfl
    | error e => cases e <;> rfl
  · intro htrue
    simp only [mirror_email_message, htrue, if_true]
    rcases hm : mark_missed_message_address_as_used gw st recipient with ⟨r, st'⟩
    cases r with
    | ok u => rfl
    | error e => cases e <;> rfl

/-- Witness for C3 (amended), both branches at concrete inputs. -/
theorem c3_sync_phase_effects_witness :
    (mirror_email_message gwEx [] stEx mmAddrEx "raw message".data).2 =
      (mark_missed_message_address_as_used gwEx stEx mmAddrEx).2 ∧
    (mirror_email_message gwEx [] stEx "general+tok@example.com".data
        "raw message".data).2 = stEx :=
  ⟨(c3_sync_phase_effects gwEx [] stEx mmAddrEx "raw message".data).2 rfl,
   (c3_sync_phase_effects gwEx [] stEx "general+tok@example.com".data
      "raw message".data).1 rfl⟩

/-! ## C6 -/

/-- C6 counterexample: the claim states recipient resolution scans the
priority list of headers and returns the first value across all three
headers matching the pattern.  With `X-Gm-Original-To` present but not
matching and `To` matching, the code stops at the first present header
and fails instead of returning the matching `To` value. -/
theorem c6_counterexample :
    find_emailgateway_recipient gwEx hdrMsgEx =
      .error (.forwardError "Missing recipient in mirror email".data) ∧
    matchesGatewayPattern gwEx "general+tok@example.com".data = true ∧
    "general+tok@example.com".data ∈ headerGetAll hdrMsgEx.headers "To".data := by
  refine ⟨rfl, rfl, by decide⟩

/-- C6 (amended): recipient resolution selects the value list of the
first header among `X-Gm-Original-To`, `Delivered-To`, `To` that is
present with a non-empty value list, and returns the first value of that
list matching the pattern; it fails iff the selected list contains no
match — values of lower-priority headers are never examined. -/
theorem c6_recipient_scan_amended (gw : GatewaySettings) (msg : EmailMessage) :
    (∀ r, find_emailgateway_recipient gw msg = .ok r →
      r ∈ pickRecipients msg ∧ matchesGatewayPattern gw r = true) ∧
    ((∃ m, find_emailgateway_recipient gw msg = .error m) ↔
      ∀ r ∈ pickRecipients msg, matchesGatewayPattern gw r = false) := by
  cases hf : (pickRecipients msg).find? (fun r => matchesGatewayPattern gw r) with
  | some r0 =>
    constructor
    · intro r h
      unfold find_emailgateway_recipient at h
      rw [hf] at h
      injection h with h
      subst h
      exact ⟨List.mem_of_find?_eq_some hf, List.find?_some hf⟩
    · constructor
      · rintro ⟨m, h⟩
        unfold find_emailgateway_recipient at h
        rw [hf] at h
        cases h
      · intro hall
        have := List.find?_some hf
        have hmem := List.mem_of_find?_eq_some hf
        rw [hall r0 hmem] at this
        cases this
  | none =>
    constructor
    · intro r h
      unfold find_emailgateway_recipient at h
      rw [hf] at h
      cases h
    · constructor
      · intro _
        intro r hr
        have := List.find?_eq_none.mp hf r hr
        simpa using this
      · intro _
        refine ⟨.forwardError "Missing recipient in mirror email".data, ?_⟩
        unfold find_emailgateway_recipient
        rw [hf]

/-- Witness for C6 (amended) at a message whose selected header list
contains a match. -/
theorem c6_recipient_scan_amended_witness :
    "general+tok@example.com".data ∈ pickRecipients hdrMsgEx2 ∧
    matchesGatewayPattern gwEx "general+tok@example.com".data = true :=
  (c6_recipient_scan_amended gwEx hdrMsgEx2).1 "general+tok@example.com".data rfl

/-! ## C7 -/

/-- Unfolding of `mark_missed_message_address_as_used` once the token has
been parsed from the address. -/
theorem mark_eq (gw : GatewaySettings) (st : RedisState) (addr token : List Char)
    (hparse : get_missed_message_token_from_address gw addr = .ok token) :
    mark_missed_message_address_as_used gw st addr =
      (let key := missed_message_redis_key token
       let h := (redisGet st key).getD {}
       let newValue : Int := h.uses_left.getD 0 - 1
       let st' := redisSet st key { h with uses_left := some newValue }
       if newValue < 0 then
         (.error (.forwardError "Missed message address has already been used".data),
          redisDel st' key)
       else (.ok (), st')) := by
  unfold mark_missed_message_address_as_used
  rw [hparse]

/-- C7: a missed-message token's `uses_left` is monotonically
non-increasing across consume operations; the record is deleted as soon
as a decrement would make it negative; a first consume on a fresh token
(`uses_left = 1`) succeeds, and any subsequent consume fails with the
address-exhausted `ZulipEmailForwardError` with the backing record
deleted. -/
theorem c7_token_single_use (gw : GatewaySettings) (addr token : List Char)
    (hparse : get_missed_message_token_from_address gw addr = .ok token) :
    (∀ st k h',
      redisGet (mark_missed_message_address_as_used gw st addr).2 k = some h' →
      ∃ h0, redisGet st k = some h0 ∧
        (h' = h0 ∨ ∃ v' v0 : Int, h'.uses_left = some v' ∧
          h0.uses_left = some v0 ∧ v' ≤ v0)) ∧
    (∀ st h0 (v0 : Int),
      redisGet st (missed_message_redis_key token) = some h0 →
      h0.uses_left = some v0 → v0 ≤ 0 →
      (mark_missed_message_address_as_used gw st addr).1 =
        .error (.forwardError "Missed message address has already been used".data) ∧
      redisGet (mark_missed_message_address_as_used gw st addr).2
        (missed_message_redis_key token) = none) ∧
    (∀ st h0,
      redisGet st (missed_message_redis_key token) = some h0 →
      h0.uses_left = some 1 →
      (mark_missed_message_address_as_used gw st addr).1 = .ok () ∧
      redisGet (mark_missed_message_address_as_used gw st addr).2
        (missed_message_redis_key token) = some { h0 with uses_left := some 0 } ∧
      (mark_missed_message_address_as_used gw
        (mark_missed_message_address_as_used gw st addr).2 addr).1 =
        .error (.forwardError "Missed message address has already been used".data) ∧
      redisGet (mark_missed_message_address_as_used gw
        (mark_missed_message_address_as_used gw st addr).2 addr).2
        (missed_message_redis_key token) = none) := by
  have hmono : ∀ st k h',
      redisGet (mark_missed_message_address_as_used gw st addr).2 k = some h' →
      ∃ h0, redisGet st k = some h0 ∧
        (h' = h0 ∨ ∃ v' v0 : Int, h'.uses_left = some v' ∧
          h0.uses_left = some v0 ∧ v' ≤ v0) := by
    intro st k h' hget
    rw [mark_eq gw st addr token hparse] at hget
    simp only [] at hget
    by_cases hv :
        (((redisGet st (missed_message_redis_key token)).getD {}).uses_left.getD 0 - 1 : Int) < 0
    · rw [if_pos hv] at hget
      by_cases hk : k = missed_message_redis_key token
      · subst hk
        rw [redisGet_del_self] at hget
        cases hget
      · rw [redisGet_del_ne _ _ _ hk, redisGet_set_ne _ _ _ _ hk] at hget
        exact ⟨h', hget, .inl rfl⟩
    · rw [if_neg hv] at hget
      by_cases hk : k = missed_message_redis_key token
      · subst hk
        rw [redisGet_set_self] at hget
        injection hget with hget
        rcases hg0 : redisGet st (missed_message_redis_key token) with _ | h0
        · exfalso
          apply hv
          rw [hg0]
          simp [Option.getD, RedisHash.uses_left]
        · rcases hu0 : h0.uses_left with _ | v0
          · exfalso
            apply hv
            rw [hg0]
            simp only [Option.getD]
            rw [hu0]
            simp [Option.getD]
          · refine ⟨h0, rfl, .inr ⟨v0 - 1, v0, ?_, hu0, by omega⟩⟩
            rw [← hget]
            rw [hg0] at hv ⊢
            simp only [Option.getD] at hv ⊢
            rw [hu0] at hv ⊢
      · rw [redisGet_set_ne _ _ _ _ hk] at hget
        exact ⟨h', hget, .inl rfl⟩
  have hdel : ∀ st h0 (v0 : Int),
      redisGet st (missed_message_redis_key token) = some h0 →
      h0.uses_left = some v0 → v0 ≤ 0 →
      (mark_missed_message_address_as_used gw st addr).1 =
        .error (.forwardError "Missed message address has already been used".data) ∧
      redisGet (mark_missed_message_address_as_used gw st addr).2
        (missed_message_redis_key token) = none := by
    intro st h0 v0 hg hu hle
    rw [mark_eq gw st addr token hparse]
    simp only []
    have hv :
        (((redisGet st (missed_message_redis_key token)).getD {}).uses_left.getD 0 - 1 : Int) < 0 := by
      rw [hg]
      simp only [Option.getD]
      rw [hu]
      simp only [Option.getD]
      omega
    rw [if_pos hv]
    exact ⟨rfl, redisGet_del_self _ _⟩
  refine ⟨hmono, hdel, ?_⟩
  intro st h0 hg hu
  have h1 : mark_missed_message_address_as_used gw st addr =
      (.ok (), redisSet st (missed_message_redis_key token)
        { h0 with uses_left := some 0 }) := by
    rw [mark_eq gw st addr token hparse]
    simp only []
    rw [hg]
    simp only [Option.getD]
    rw [hu]
    simp only [Option.getD]
    norm_num
  have hst1 : redisGet (mark_missed_message_address_as_used gw st addr).2
      (missed_message_redis_key token) = some { h0 with uses_left := some 0 } := by
    rw [h1]
    exact redisGet_set_self _ _ _
  have h2 := hdel (mark_missed_message_address_as_used gw st addr).2
    { h0 with uses_left := some 0 } 0 hst1 rfl le_rfl
  exact ⟨by rw [h1], hst1, h2.1, h2.2⟩

/-- Witness for C7: the fresh-token scenario at the concrete fixture
store. -/
theorem c7_token_single_use_witness :
    (mark_missed_message_address_as_used gwEx stEx mmAddrEx).1 = .ok () ∧
    (mark_missed_message_address_as_used gwEx
      (mark_missed_message_address_as_used gwEx stEx mmAddrEx).2 mmAddrEx).1 =
      .error (.forwardError "Missed message address has already been used".data) ∧
    redisGet (mark_missed_message_address_as_used gwEx
      (mark_missed_message_address_as_used gwEx stEx mmAddrEx).2 mmAddrEx).2
      (missed_message_redis_key tokEx) = none := by
  have h := (c7_token_single_use gwEx mmAddrEx tokEx rfl).2.2 stEx freshHashEx rfl rfl
  exact ⟨h.1, h.2.2.1, h.2.2.2⟩

/-! ## C4 -/

/-- C4 counterexample: the claim states the captured local part is split
at its first occurrence of either `+` or `.`, and that an absent
separator yields the `MalformedAddress` error of the `ForwardError`
taxonomy.  On `a+b.c` the code prefers the `.` split (yielding
`("a+b", "c")`, not the claim's `("a", "b.c")`), and with no separator it
raises a `ValueError` (tuple unpacking), not a `ForwardError`. -/
theorem c4_counterexample :
    decode_email_address gwEx "a+b.c@example.com".data =
      .ok ("a+b".data, "c".data) ∧
    decode_email_address gwEx "a+b.c@example.com".data ≠
      .ok ("a".data, "b.c".data) ∧
    decode_email_address gwEx "abc@example.com".data =
      .error (.valueErr "not enough values to unpack (expected 2, got 1)".data) := by
  refine ⟨rfl, by decide, rfl⟩

/-- C4 (amended): when the captured segment contains a `.` the split is
at the `.` (requiring exactly one `.`); otherwise at the `+` (requiring
exactly one `+`); a segment with neither separator fails with a
`ValueError` that does not belong to the `ForwardError` taxonomy and is
not caught at the dispatch boundary. -/
theorem c4_decode_split_amended (gw : GatewaySettings) (email ms : List Char)
    (hms : get_email_gateway_message_string_from_address gw email = .ok ms) :
    (ms.contains '.' = true → ∀ a b, splitOnChar '.' ms = [a, b] →
      decode_email_address gw email = .ok (decodeName a, b)) ∧
    (ms.contains '.' = false → ∀ a b, splitOnChar '+' ms = [a, b] →
      decode_email_address gw email = .ok (decodeName a, b)) ∧
    (ms.contains '.' = false → ∀ a, splitOnChar '+' ms = [a] →
      decode_email_address gw email =
        .error (.valueErr "not enough values to unpack (expected 2, got 1)".data)) := by
  refine ⟨?_, ?_, ?_⟩
  · intro hdot a b hsplit
    unfold decode_email_address
    rw [hms]
    simp only [hdot, if_true]
    rw [hsplit]
  · intro hdot a b hsplit
    unfold decode_email_address
    rw [hms]
    simp only [hdot, Bool.false_eq_true, if_false]
    rw [hsplit]
  · intro hdot a hsplit
    unfold decode_email_address
    rw [hms]
    simp only [hdot, Bool.false_eq_true, if_false]
    rw [hsplit]
    rfl

/-- Witness for C4 (amended): the dot split at a concrete address. -/
theorem c4_decode_split_amended_witness :
    decode_email_address gwEx "a.b@example.com".data = .ok ("a".data, "b".data) :=
  (c4_decode_split_amended gwEx "a.b@example.com".data "a.b".data rfl).1
    rfl "a".data "b".data rfl

/-! ## C8 -/

/-- C8 counterexample: the claim states that whenever both a plaintext
and an HTML part exist, `extract_body` uses the plaintext part and never
falls back to HTML.  With a plaintext part that decodes to the empty
string (falsy), the code falls through to the HTML part. -/
theorem c8_counterexample :
    get_message_part_by_type extEx msgC8 "text/plain".data = .ok (some []) ∧
    get_message_part_by_type extEx msgC8 "text/html".data =
      .ok (some "Hi".data) ∧
    extract_body extEx msgC8 =
      .ok (extEx.convertHtmlToMarkdown (extEx.extractFromHtml "Hi".data)) ∧
    extract_body extEx msgC8 ≠ .ok (extEx.extractFromPlain []) := by
  refine ⟨rfl, rfl, rfl, by decide⟩

/-- Helper for C8: parts whose content type differs are skipped by the
`get_message_part_by_type` scan. -/
theorem findPartByType_append_skip (ext : ExternalFns) (ct : List Char)
    (pre rest : List MimeMsg) (hpre : ∀ q ∈ pre, q.contentType ≠ ct) :
    findPartByType ext ct (pre ++ rest) = findPartByType ext ct rest := by
  induction pre with
  | nil => rfl
  | cons q qs ih =>
    have hq : q.contentType ≠ ct := hpre q (List.mem_cons_self q qs)
    rw [List.cons_append, findPartByType, if_neg hq]
    exact ih (fun p hp => hpre p (List.mem_cons_of_mem q hp))

/-- C8 (amended): when the first plaintext part of the `walk()` order has
a declared (truthy) charset and decodes to a non-empty string,
`extract_body` returns that decoded plaintext, quotation-stripped, and
the HTML part is not consulted.  (The counterexample shows the non-empty
hypothesis is necessary: an empty decoded plaintext part makes the code
fall back to HTML.) -/
theorem c8_plaintext_preference_amended (ext : ExternalFns) (m : MimeMsg)
    (pre rest : List MimeMsg) (cs : List Char) (fn : Option (List Char))
    (bytes : List Nat)
    (hw : m.walk = pre ++ (.leaf "text/plain".data (some cs) fn bytes) :: rest)
    (hcs : cs ≠ [])
    (hne : ext.decodeCharset cs bytes ≠ [])
    (hpre : ∀ q ∈ pre, q.contentType ≠ "text/plain".data) :
    extract_body ext m = .ok (ext.extractFromPlain (ext.decodeCharset cs bytes)) := by
  have hget : get_message_part_by_type ext m "text/plain".data =
      .ok (some (ext.decodeCharset cs bytes)) := by
    unfold get_message_part_by_type
    rw [hw, findPartByType_append_skip ext _ pre _ hpre, findPartByType]
    simp only [MimeMsg.contentType, if_pos rfl, MimeMsg.payloadBytes, MimeMsg.charset,
      if_true]
    rw [if_pos hcs]
  unfold extract_body
  rw [hget]
  simp only [strTruthy, hne]
  rw [if_pos]
  · rfl
  · simp [hne]

/-- Witness for C8 (amended) at a concrete multipart message with a
non-empty plaintext part. -/
theorem c8_plaintext_preference_amended_witness :
    extract_body extEx msgC8w = .ok "Hello".data := by
  have h := c8_plaintext_preference_amended extEx msgC8w [msgC8w]
    [.leaf "text/html".data (some "us-ascii".data) none [72, 105]]
    "us-ascii".data none [72, 101, 108, 108, 111]
    rfl (by decide) (by decide)
    (by
      intro q hq
      rw [List.mem_singleton] at hq
      subst hq
      decide)
  exact h

/-! ## Helper lemmas for C1: digits, decimal printing, the escape codec -/

theorem charOfNat_isDigit (m : Nat) (h : m < 10) :
    (Char.ofNat (48 + m)).isDigit = true := by
  interval_cases m <;> decide

theorem digitVal_charOfNat (m : Nat) (h : m < 10) :
    digitVal (Char.ofNat (48 + m)) = m := by
  interval_cases m <;> decide

theorem natDecAux_all_digits (fuel : Nat) :
    ∀ n acc, (∀ c ∈ acc, c.isDigit = true) →
    ∀ c ∈ natDecAux fuel n acc, c.isDigit = true := by
  induction fuel with
  | zero => intro n acc hacc c hc; exact hacc c hc
  | succ fuel ih =>
    intro n acc hacc c hc
    rw [natDecAux] at hc
    have hacc' : ∀ c ∈ Char.ofNat (48 + n % 10) :: acc, c.isDigit = true := by
      intro c' hc'
      rcases List.mem_cons.mp hc' with h' | h'
      · subst h'
        exact charOfNat_isDigit _ (Nat.mod_lt _ (by omega))
      · exact hacc c' h'
    by_cases hn : n < 10
    · rw [if_pos hn] at hc
      exact hacc' c hc
    · rw [if_neg hn] at hc
      exact ih _ _ hacc' c hc

theorem natDec_all_digits (n : Nat) : ∀ c ∈ natDec n, c.isDigit = true :=
  natDecAux_all_digits (n + 1) n [] (by intro c hc; cases hc)

theorem natDecAux_step (fuel n : Nat) (acc : List Char) (hfuel : 0 < fuel) :
    natDecAux fuel n acc =
      if n < 10 then Char.ofNat (48 + n % 10) :: acc
      else natDecAux (fuel - 1) (n / 10) (Char.ofNat (48 + n % 10) :: acc) := by
  rcases fuel with _ | fuel
  · omega
  · rw [natDecAux]
    rfl

theorem natDec_lt10 (m : Nat) (h : m < 10) :
    natDec m = [Char.ofNat (48 + m)] := by
  rw [natDec, natDecAux_step _ _ _ (by omega), if_pos h, Nat.mod_eq_of_lt h]

theorem natDec_lt100 (m : Nat) (h10 : 10 ≤ m) (h : m < 100) :
    natDec m = [Char.ofNat (48 + m / 10), Char.ofNat (48 + m % 10)] := by
  rw [natDec, natDecAux_step _ _ _ (by omega), if_neg (by omega),
    natDecAux_step _ _ _ (by omega), if_pos (by omega),
    Nat.mod_eq_of_lt (by omega : m / 10 < 10)]

theorem natDec_lt1000 (m : Nat) (h100 : 100 ≤ m) (h : m < 1000) :
    natDec m = [Char.ofNat (48 + m / 100), Char.ofNat (48 + m / 10 % 10),
      Char.ofNat (48 + m % 10)] := by
  rw [natDec, natDecAux_step _ _ _ (by omega), if_neg (by omega),
    natDecAux_step _ _ _ (by omega), if_neg (by omega),
    natDecAux_step _ _ _ (by omega), if_pos (by omega)]
  rw [Nat.div_div_eq_div_mul]
  norm_num
  rw [Nat.mod_eq_of_lt (by omega : m / 100 < 10)]

theorem natDec_lt10000 (m : Nat) (h1000 : 1000 ≤ m) (h : m < 10000) :
    natDec m = [Char.ofNat (48 + m / 1000), Char.ofNat (48 + m / 100 % 10),
      Char.ofNat (48 + m / 10 % 10), Char.ofNat (48 + m % 10)] := by
  rw [natDec, natDecAux_step _ _ _ (by omega), if_neg (by omega),
    natDecAux_step _ _ _ (by omega), if_neg (by omega),
    natDecAux_step _ _ _ (by omega), if_neg (by omega),
    natDecAux_step _ _ _ (by omega), if_pos (by omega)]
  rw [Nat.div_div_eq_div_mul, Nat.div_div_eq_div_mul, Nat.div_div_eq_div_mul]
  norm_num
  rw [Nat.mod_eq_of_lt (by omega : m / 1000 < 10)]

/-- For a code point below 10000, `str(m).zfill(4)` is the four-digit
decimal rendering. -/
theorem zfill_natDec (m : Nat) (h : m ≤ 9999) :
    zfill 4 (natDec m) =
      [Char.ofNat (48 + m / 1000 % 10), Char.ofNat (48 + m / 100 % 10),
       Char.ofNat (48 + m / 10 % 10), Char.ofNat (48 + m % 10)] := by
  rcases Nat.lt_or_ge m 10 with h1 | h1
  · rw [natDec_lt10 m h1, zfill]
    have e1 : m / 1000 % 10 = 0 := by omega
    have e2 : m / 100 % 10 = 0 := by omega
    have e3 : m / 10 % 10 = 0 := by omega
    have e4 : m % 10 = m := by omega
    rw [e1, e2, e3, e4]
    rfl
  rcases Nat.lt_or_ge m 100 with h2 | h2
  · rw [natDec_lt100 m h1 h2, zfill]
    have e1 : m / 1000 % 10 = 0 := by omega
    have e2 : m / 100 % 10 = 0 := by omega
    have e3 : m / 10 % 10 = m / 10 := by omega
    rw [e1, e2, e3]
    rfl
  rcases Nat.lt_or_ge m 1000 with h3 | h3
  · rw [natDec_lt1000 m h2 h3, zfill]
    have e1 : m / 1000 % 10 = 0 := by omega
    have e2 : m / 100 % 10 = m / 100 := by omega
    rw [e1, e2]
    rfl
  · rw [natDec_lt10000 m h3 (by omega), zfill]
    have e1 : m / 1000 % 10 = m / 1000 := by omega
    rw [e1]
    rfl

/-- Unfolding of one scan step (pure `rfl`, usable under rewriting). -/
theorem decodeNameAux_cons (f : Nat) (c : Char) (rest : List Char) :
    decodeNameAux (f + 1) (c :: rest) =
      (if c = '%' then
        match rest with
        | d1 :: d2 :: d3 :: d4 :: rest' =>
          if d1.isDigit && d2.isDigit && d3.isDigit && d4.isDigit then
            Char.ofNat (digitVal d1 * 1000 + digitVal d2 * 100 +
              digitVal d3 * 10 + digitVal d4) :: decodeNameAux f rest'
          else c :: decodeNameAux f rest
        | _ => c :: decodeNameAux f rest
      else c :: decodeNameAux f rest) := rfl

theorem decodeNameAux_zero (l : List Char) : decodeNameAux 0 l = l := by
  cases l <;> rfl

/-- A list shorter than five characters cannot contain a `%dddd` escape,
so the scan leaves it unchanged, whatever the fuel. -/
theorem decodeNameAux_short (f : Nat) :
    ∀ l : List Char, l.length ≤ 4 → decodeNameAux f l = l := by
  induction f with
  | zero => intro l _; exact decodeNameAux_zero l
  | succ f ih =>
    intro l hlen
    rcases l with _ | ⟨c, rest⟩
    · rfl
    · simp only [List.length_cons] at hlen
      rw [decodeNameAux_cons]
      by_cases hc : c = '%'
      · subst hc
        rw [if_pos rfl]
        rcases rest with _ | ⟨d1, _ | ⟨d2, _ | ⟨d3, _ | ⟨d4, r⟩⟩⟩⟩
        · show '%' :: decodeNameAux f [] = '%' :: []
          exact congrArg _ (ih [] (by omega))
        · show '%' :: decodeNameAux f [d1] = '%' :: [d1]
          exact congrArg _ (ih [d1]
            (by simp only [List.length_cons, List.length_nil]; omega))
        · show '%' :: decodeNameAux f [d1, d2] = '%' :: [d1, d2]
          exact congrArg _ (ih [d1, d2]
            (by simp only [List.length_cons, List.length_nil]; omega))
        · show '%' :: decodeNameAux f [d1, d2, d3] = '%' :: [d1, d2, d3]
          exact congrArg _ (ih [d1, d2, d3]
            (by simp only [List.length_cons, List.length_nil]; omega))
        · exfalso
          simp only [List.length_cons] at hlen
          omega
      · rw [if_neg hc]
        exact congrArg _ (ih rest (by omega))

theorem decodeNameAux_congr (f1 : Nat) :
    ∀ f2 l, l.length ≤ f1 → l.length ≤ f2 →
      decodeNameAux f1 l = decodeNameAux f2 l := by
  induction f1 with
  | zero =>
    intro f2 l h1 _
    have : l = [] := List.length_eq_zero.mp (by omega)
    subst this
    rw [decodeNameAux_zero]
    cases f2 <;> rfl
  | succ f1 ih =>
    intro f2 l h1 h2
    cases l with
    | nil =>
      cases f2 <;> rfl
    | cons c rest =>
      rcases f2 with _ | f2
      · simp at h2
      · simp only [List.length_cons] at h1 h2
        rcases rest with _ | ⟨d1, _ | ⟨d2, _ | ⟨d3, _ | ⟨d4, rest'⟩⟩⟩⟩
        · rw [decodeNameAux_short (f1 + 1) [c]
              (by simp only [List.length_cons, List.length_nil]; omega),
            decodeNameAux_short (f2 + 1) [c]
              (by simp only [List.length_cons, List.length_nil]; omega)]
        · rw [decodeNameAux_short (f1 + 1) [c, d1]
              (by simp only [List.length_cons, List.length_nil]; omega),
            decodeNameAux_short (f2 + 1) [c, d1]
              (by simp only [List.length_cons, List.length_nil]; omega)]
        · rw [decodeNameAux_short (f1 + 1) [c, d1, d2]
              (by simp only [List.length_cons, List.length_nil]; omega),
            decodeNameAux_short (f2 + 1) [c, d1, d2]
              (by simp only [List.length_cons, List.length_nil]; omega)]
        · rw [decodeNameAux_short (f1 + 1) [c, d1, d2, d3]
              (by simp only [List.length_cons, List.length_nil]; omega),
            decodeNameAux_short (f2 + 1) [c, d1, d2, d3]
              (by simp only [List.length_cons, List.length_nil]; omega)]
        · simp only [List.length_cons] at h1 h2
          rw [decodeNameAux_cons, decodeNameAux_cons]
          by_cases hc : c = '%'
          · rw [if_pos hc, if_pos hc]
            simp only []
            by_cases hd : (d1.isDigit && d2.isDigit && d3.isDigit && d4.isDigit) = true
            · rw [if_pos hd, if_pos hd]
              exact congrArg _ (ih f2 rest' (by omega) (by omega))
            · rw [if_neg hd, if_neg hd]
              exact congrArg _ (ih f2 (d1 :: d2 :: d3 :: d4 :: rest')
                (by simp only [List.length_cons]; omega)
                (by simp only [List.length_cons]; omega))
          · rw [if_neg hc, if_neg hc]
            exact congrArg _ (ih f2 (d1 :: d2 :: d3 :: d4 :: rest')
              (by simp only [List.length_cons]; omega)
              (by simp only [List.length_cons]; omega))

theorem decodeName_cons (c : Char) (l : List Char) (hc : c ≠ '%') :
    decodeName (c :: l) = c :: decodeName l := by
  rw [decodeName, decodeName, List.length_cons, decodeNameAux_cons, if_neg hc]

theorem decodeName_escape (d1 d2 d3 d4 : Char) (l : List Char)
    (hd : (d1.isDigit && d2.isDigit && d3.isDigit && d4.isDigit) = true) :
    decodeName ('%' :: d1 :: d2 :: d3 :: d4 :: l) =
      Char.ofNat (digitVal d1 * 1000 + digitVal d2 * 100 +
        digitVal d3 * 10 + digitVal d4) :: decodeName l := by
  rw [decodeName, decodeName]
  simp only [List.length_cons]
  rw [decodeNameAux_cons, if_pos rfl]
  simp only []
  rw [if_pos hd]
  exact congrArg _ (decodeNameAux_congr (l.length + 1 + 1 + 1 + 1) l.length l
    (by omega) (by omega))

/-- Round trip of the per-name escape codec for names whose characters
are word characters or have code points representable in four decimal
digits. -/
theorem decodeName_encodeName (n : List Char)
    (h : ∀ c ∈ n, isWordChar c = true ∨ c.toNat ≤ 9999) :
    decodeName (encodeName n) = n := by
  induction n with
  | nil => rfl
  | cons c rest ih =>
    have hrest := ih (fun c' hc' => h c' (List.mem_cons_of_mem c hc'))
    rw [encodeName, List.flatMap_cons, ← encodeName]
    by_cases hw : isWordChar c = true
    · rw [encodeChar, if_pos hw]
      have hc : c ≠ '%' := by
        intro hc
        subst hc
        exact absurd hw (by decide)
      rw [List.singleton_append, decodeName_cons c _ hc, hrest]
    · have hle : c.toNat ≤ 9999 := (h c (List.mem_cons_self c rest)).resolve_left hw
      rw [encodeChar, if_neg hw, zfill_natDec c.toNat hle]
      have hd : ((Char.ofNat (48 + c.toNat / 1000 % 10)).isDigit &&
          (Char.ofNat (48 + c.toNat / 100 % 10)).isDigit &&
          (Char.ofNat (48 + c.toNat / 10 % 10)).isDigit &&
          (Char.ofNat (48 + c.toNat % 10)).isDigit) = true := by
        rw [charOfNat_isDigit _ (by omega), charOfNat_isDigit _ (by omega),
          charOfNat_isDigit _ (by omega), charOfNat_isDigit _ (by omega)]
        rfl
      rw [List.cons_append, List.cons_append, List.cons_append, List.cons_append,
        List.cons_append, List.nil_append, decodeName_escape _ _ _ _ _ hd]
      rw [digitVal_charOfNat _ (by omega), digitVal_charOfNat _ (by omega),
        digitVal_charOfNat _ (by omega), digitVal_charOfNat _ (by omega)]
      have hv : c.toNat / 1000 % 10 * 1000 + c.toNat / 100 % 10 * 100 +
          c.toNat / 10 % 10 * 10 + c.toNat % 10 = c.toNat := by omega
      rw [hv, Char.ofNat_toNat, hrest]

/-! ## Helper lemmas for C1: character classification of encoded names -/

theorem isDigit_ne_special (c : Char) (h : c.isDigit = true) :
    c ≠ '@' ∧ c ≠ '+' ∧ c ≠ '.' := by
  refine ⟨?_, ?_, ?_⟩ <;> rintro rfl <;> exact absurd h (by decide)

theorem isWordChar_ne_special (c : Char) (h : isWordChar c = true) :
    c ≠ '@' ∧ c ≠ '+' ∧ c ≠ '.' := by
  refine ⟨?_, ?_, ?_⟩ <;> rintro rfl <;> exact absurd h (by decide)

theorem isAlphanum_ne_special (c : Char) (h : c.isAlphanum = true) :
    c ≠ '@' ∧ c ≠ '+' ∧ c ≠ '.' := by
  refine ⟨?_, ?_, ?_⟩ <;> rintro rfl <;> exact absurd h (by decide)

/-- Every character of an encoded stream name is a word character, `%`,
or a decimal digit — in particular never `@`, `+` or `.`. -/
theorem encodeName_no_special (n : List Char) :
    ∀ c' ∈ encodeName n, c' ≠ '@' ∧ c' ≠ '+' ∧ c' ≠ '.' := by
  intro c' hc'
  rw [encodeName, List.mem_flatMap] at hc'
  obtain ⟨c, _, hmem⟩ := hc'
  rw [encodeChar] at hmem
  by_cases hw : isWordChar c = true
  · rw [if_pos hw] at hmem
    rw [List.mem_singleton] at hmem
    subst hmem
    exact isWordChar_ne_special _ hw
  · rw [if_neg hw] at hmem
    rcases List.mem_cons.mp hmem with h' | h'
    · subst h'
      refine ⟨?_, ?_, ?_⟩ <;> decide
    · rw [zfill, List.mem_append] at h'
      rcases h' with h' | h'
      · have := List.eq_of_mem_replicate h'
        subst this
        refine ⟨?_, ?_, ?_⟩ <;> decide
      · exact isDigit_ne_special c' (natDec_all_digits _ c' h')

/-! ## Helper lemmas for C1: splitting and capture extraction -/

theorem splitOnChar_no_sep (sep : Char) (l : List Char)
    (h : ∀ c ∈ l, c ≠ sep) : splitOnChar sep l = [l] := by
  induction l with
  | nil => rfl
  | cons c rest ih =>
    rw [splitOnChar, if_neg (h c (List.mem_cons_self c rest)),
      ih (fun c' hc' => h c' (List.mem_cons_of_mem c hc'))]
    rfl

theorem splitOnChar_append_sep (sep : Char) (a b : List Char)
    (ha : ∀ c ∈ a, c ≠ sep) (hb : ∀ c ∈ b, c ≠ sep) :
    splitOnChar sep (a ++ sep :: b) = [a, b] := by
  induction a with
  | nil =>
    rw [List.nil_append, splitOnChar, if_pos rfl, splitOnChar_no_sep sep b hb]
  | cons c a' ih =>
    rw [List.cons_append, splitOnChar,
      if_neg (ha c (List.mem_cons_self c a')),
      ih (fun c' hc' => ha c' (List.mem_cons_of_mem c hc'))]
    rfl

theorem contains_eq_false_of_forall_ne (l : List Char) (x : Char)
    (h : ∀ c ∈ l, c ≠ x) : l.contains x = false := by
  have : x ∉ l := fun hmem => h x hmem rfl
  simpa using this

theorem isPrefixOf_append_self (l t : List Char) :
    l.isPrefixOf (l ++ t) = true := by
  rw [List.isPrefixOf_iff_prefix]
  exact List.prefix_append l t

theorem findCaptureAux_exact (p2h : Char) (p2t : List Char) :
    ∀ enc, (∀ c ∈ enc, c ≠ p2h) →
      findCaptureAux (p2h :: p2t) (enc ++ p2h :: p2t) = some enc := by
  intro enc
  induction enc with
  | nil =>
    intro _
    rw [List.nil_append, findCaptureAux]
    rw [if_pos]
    rw [List.isPrefixOf_iff_prefix]
  | cons c enc' ih =>
    intro h
    rw [List.cons_append, findCaptureAux]
    have hne : ((p2h :: p2t).isPrefixOf (c :: (enc' ++ p2h :: p2t))) = false := by
      have hcne : (p2h == c) = false :=
        beq_eq_false_iff_ne.mpr (fun hc => h c (List.mem_cons_self c enc') hc.symm)
      simp only [List.isPrefixOf, hcne, Bool.false_and]
    rw [hne]
    simp only [Bool.false_eq_true, if_false]
    rw [ih (fun c' hc' => h c' (List.mem_cons_of_mem c hc'))]
    rfl

/-! ## C1 -/

/-- C1 counterexample: the claim quantifies over every channel name, but
the `%`-escape renders the code point in decimal with `zfill(4)`, which
produces five or more digits for code points above 9999 while the
decoder only consumes `%` plus exactly four digits.  The name `"😀"`
(code point 128512) therefore decodes to `"ԅ12"` (`chr(1285)` followed by
the two leftover digits), so `decode(encode(n, t)) = (n, t)` fails. -/
theorem c1_counterexample :
    decode_email_address gwEx
        (encode_email_address_helper gwEx "😀".data "abc123".data) =
      .ok ("ԅ12".data, "abc123".data) ∧
    ("ԅ12".data, "abc123".data) ≠ ("😀".data, "abc123".data) := by
  refine ⟨rfl, by decide⟩

/-- C1 (amended): for every channel name all of whose characters are
word characters or have code points at most 9999 (so the 4-digit escape
is exact), and every alphanumeric token, decoding the encoded address
returns exactly the pair `(name, token)`.  The template is any one-`%s`
pattern whose literal suffix starts with `@`. -/
theorem c1_roundtrip_amended (gw : GatewaySettings) (p1 p2t name token : List Char)
    (hparts : splitPercentS gw.emailGatewayPattern = [p1, '@' :: p2t])
    (hname : ∀ c ∈ name, isWordChar c = true ∨ c.toNat ≤ 9999)
    (htoken : ∀ c ∈ token, c.isAlphanum = true) :
    decode_email_address gw (encode_email_address_helper gw name token) =
      .ok (name, token) := by
  have hne : gw.emailGatewayPattern ≠ [] := by
    intro h0
    rw [h0] at hparts
    simp [splitPercentS] at hparts
  have hencode : encode_email_address_helper gw name token =
      p1 ++ (encodeName name ++ '+' :: token) ++ ('@' :: p2t) := by
    rw [encode_email_address_helper, if_neg hne, substitutePercentS, hparts]
    rfl
  have hencChars := encodeName_no_special name
  have htokChars : ∀ c ∈ token, c ≠ '@' ∧ c ≠ '+' ∧ c ≠ '.' :=
    fun c hc => isAlphanum_ne_special c (htoken c hc)
  have hencAt : ∀ c ∈ encodeName name ++ '+' :: token, c ≠ '@' := by
    intro c hc
    rcases List.mem_append.mp hc with h' | h'
    · exact (hencChars c h').1
    · rcases List.mem_cons.mp h' with h'' | h''
      · subst h''
        decide
      · exact (htokChars c h'').1
  have hencDot : ∀ c ∈ encodeName name ++ '+' :: token, c ≠ '.' := by
    intro c hc
    rcases List.mem_append.mp hc with h' | h'
    · exact (hencChars c h').2.2
    · rcases List.mem_cons.mp h' with h'' | h''
      · subst h''
        decide
      · exact (htokChars c h'').2.2
  have hget : get_email_gateway_message_string_from_address gw
      (p1 ++ (encodeName name ++ '+' :: token) ++ ('@' :: p2t)) =
      .ok (encodeName name ++ '+' :: token) := by
    unfold get_email_gateway_message_string_from_address
    rw [hparts]
    simp only []
    rw [List.append_assoc]
    rw [if_pos (isPrefixOf_append_self p1 _), List.drop_left,
      findCaptureAux_exact '@' p2t _ hencAt]
  rw [hencode]
  unfold decode_email_address
  rw [hget]
  simp only []
  have hcontains : (encodeName name ++ '+' :: token).contains '.' = false :=
    contains_eq_false_of_forall_ne _ '.' hencDot
  rw [hcontains]
  simp only [Bool.false_eq_true, if_false]
  rw [splitOnChar_append_sep '+' (encodeName name) token
    (fun c hc => (hencChars c hc).2.1) (fun c hc => (htokChars c hc).2.1)]
  simp only []
  rw [decodeName_encodeName name hname]

/-- Witness for C1 (amended): the specification's own scenario
`encode("sales/eu", "abc123")` under the template `%s@example.com`. -/
theorem c1_roundtrip_amended_witness :
    decode_email_address gwEx
        (encode_email_address_helper gwEx "sales/eu".data "abc123".data) =
      .ok ("sales/eu".data, "abc123".data) :=
  c1_roundtrip_amended gwEx "".data "example.com".data "sales/eu".data
    "abc123".data rfl (by decide) (by decide)

/-! ## Helper lemmas for C5: line splitting, the `--` scan, stripping -/

theorem splitOnChar_ne_nil (sep : Char) (l : List Char) :
    splitOnChar sep l ≠ [] := by
  induction l with
  | nil => intro h; cases h
  | cons c rest ih =>
    rw [splitOnChar]
    by_cases hc : c = sep
    · rw [if_pos hc]
      intro h
      cases h
    · rw [if_neg hc]
      rcases hS : splitOnChar sep rest with _ | ⟨s0, S'⟩
      · exact absurd hS ih
      · rw [consHead]
        intro h
        cases h

theorem joinWithChar_cons₂ (sep : Char) (a b : List Char) (t : List (List Char)) :
    joinWithChar sep (a :: b :: t) = a ++ sep :: joinWithChar sep (b :: t) := rfl

theorem joinWithChar_splitOnChar (sep : Char) (l : List Char) :
    joinWithChar sep (splitOnChar sep l) = l := by
  induction l with
  | nil => rfl
  | cons c rest ih =>
    rw [splitOnChar]
    rcases hS : splitOnChar sep rest with _ | ⟨s0, S'⟩
    · exact absurd hS (splitOnChar_ne_nil sep rest)
    · rw [hS] at ih
      by_cases hc : c = sep
      · rw [if_pos hc, joinWithChar_cons₂, List.nil_append, ih, hc]
      · rw [if_neg hc, consHead]
        rcases S' with _ | ⟨s1, S''⟩
        · rw [joinWithChar] at ih ⊢
          rw [ih]
        · rw [joinWithChar_cons₂] at ih ⊢
          rw [List.cons_append, ih]

theorem join_append_of_ne_nil (sep : Char) (pre ls : List (List Char))
    (hpre : pre ≠ []) (hls : ls ≠ []) :
    joinWithChar sep (pre ++ ls) =
      joinWithChar sep pre ++ sep :: joinWithChar sep ls := by
  induction pre with
  | nil => exact absurd rfl hpre
  | cons p pre' ih =>
    rcases pre' with _ | ⟨p1, pre''⟩
    · rcases ls with _ | ⟨l0, ls'⟩
      · exact absurd rfl hls
      · rw [List.singleton_append, joinWithChar_cons₂]
        rfl
    · have hne : p1 :: pre'' ≠ [] := by intro h; cases h
      have ih' := ih hne
      rw [List.cons_append] at ih'
      rw [List.cons_append, List.cons_append, joinWithChar_cons₂, ih',
        joinWithChar_cons₂]
      simp [List.append_assoc]

theorem hasSub2_cons (x y c : Char) (l : List Char) :
    hasSub2 x y (c :: l) =
      ((decide (c = x) && decide (l.head? = some y)) || hasSub2 x y l) := rfl

theorem hasSub2_false_of_no_x (x y : Char) (l : List Char)
    (h : ∀ c ∈ l, c ≠ x) : hasSub2 x y l = false := by
  induction l with
  | nil => rfl
  | cons c rest ih =>
    rw [hasSub2_cons]
    have hc : decide (c = x) = false :=
      decide_eq_false (h c (List.mem_cons_self c rest))
    rw [hc, Bool.false_and, Bool.false_or]
    exact ih (fun c' hc' => h c' (List.mem_cons_of_mem c hc'))

theorem hasSub2_append_false (x y : Char) (u v : List Char)
    (hu : hasSub2 x y u = false) (hv : hasSub2 x y v = false)
    (hb : ∀ c, u.getLast? = some c → c ≠ x) :
    hasSub2 x y (u ++ v) = false := by
  induction u with
  | nil => exact hv
  | cons c u' ih =>
    rw [hasSub2_cons] at hu
    rw [List.cons_append, hasSub2_cons]
    rcases Bool.or_eq_false_iff.mp hu with ⟨hu1, hu2⟩
    rcases u' with _ | ⟨w, u''⟩
    · have hc : decide (c = x) = false := by
        have := hb c rfl
        exact decide_eq_false this
      rw [hc, Bool.false_and, Bool.false_or, List.nil_append]
      exact hv
    · have hhead : (w :: u'' ++ v).head? = (w :: u'').head? := rfl
      rw [hhead]
      have hrec : hasSub2 x y (w :: u'' ++ v) = false := by
        apply ih hu2
        intro c' hc'
        apply hb c'
        rw [List.getLast?_cons_cons]
        exact hc'
      rw [hrec, hu1]
      rfl

/-- Variant of `hasSub2_append_false` whose boundary condition sits on
the head of the second part instead of the last element of the first. -/
theorem hasSub2_append_false₂ (x y : Char) (u v : List Char)
    (hu : hasSub2 x y u = false) (hv : hasSub2 x y v = false)
    (hbv : ¬ v.head? = some y) :
    hasSub2 x y (u ++ v) = false := by
  induction u with
  | nil => exact hv
  | cons c u' ih =>
    rw [hasSub2_cons] at hu
    rw [List.cons_append, hasSub2_cons]
    rcases Bool.or_eq_false_iff.mp hu with ⟨hu1, hu2⟩
    rcases u' with _ | ⟨w, u''⟩
    · have hh : decide ((([] : List Char) ++ v).head? = some y) = false := by
        rw [List.nil_append]
        exact decide_eq_false hbv
      rw [hh, Bool.and_false, Bool.false_or, List.nil_append]
      exact hv
    · have hhead : (w :: u'' ++ v).head? = (w :: u'').head? := rfl
      rw [hhead]
      rw [ih hu2, hu1]
      rfl

theorem all_space_no_dash (ws : List Char) (h : ∀ c ∈ ws, isPySpace c = true) :
    ∀ c ∈ ws, c ≠ '-' := by
  intro c hc hdash
  subst hdash
  exact absurd (h _ hc) (by decide)

theorem hasSub2_join_false (x : Char) (lines : List (List Char))
    (hx : x ≠ '\n')
    (h : ∀ l ∈ lines, hasSub2 x x l = false) :
    hasSub2 x x (joinWithChar '\n' lines) = false := by
  induction lines with
  | nil => rfl
  | cons l ls ih =>
    rcases ls with _ | ⟨l1, ls'⟩
    · exact h l (List.mem_cons_self l [])
    · rw [joinWithChar_cons₂]
      apply hasSub2_append_false₂ x x l _ (h l (List.mem_cons_self l _))
      · rw [hasSub2_cons]
        have hnl : decide ('\n' = x) = false :=
          decide_eq_false (fun hc => hx hc.symm)
        rw [hnl, Bool.false_and, Bool.false_or]
        exact ih (fun l' hl' => h l' (List.mem_cons_of_mem l hl'))
      · rw [List.head?_cons]
        intro hc
        injection hc with hc
        exact hx hc.symm
theorem beforeFirst2_append (x y : Char) (u v : List Char)
    (h : hasSub2 x y (u ++ [x]) = false) :
    beforeFirst2 x y (u ++ x :: y :: v) = u := by
  induction u with
  | nil =>
    rw [List.nil_append, beforeFirst2]
    rw [if_pos]
    simp [List.head?_cons]
  | cons c u' ih =>
    rw [List.cons_append] at h
    rw [hasSub2_cons] at h
    rcases Bool.or_eq_false_iff.mp h with ⟨h1, h2⟩
    rw [List.cons_append, beforeFirst2]
    have hcond : (decide (c = x) &&
        decide ((u' ++ x :: y :: v).head? = some y)) = false := by
      rcases u' with _ | ⟨w, u''⟩
      · rw [List.nil_append, List.head?_cons]
        rw [List.nil_append, List.head?_cons] at h1
        exact h1
      · rw [List.cons_append, List.head?_cons]
        rw [List.cons_append, List.head?_cons] at h1
        exact h1
    rw [hcond]
    simp only [Bool.false_eq_true, if_false]
    rw [ih h2]

theorem footer_line_decomp (L : List Char)
    (h : (['-', '-'].isPrefixOf (pyStrip L)) = true) :
    ∃ ws mid, L = ws ++ '-' :: '-' :: mid ∧ ∀ c ∈ ws, isPySpace c = true := by
  have hsplit : L = L.takeWhile isPySpace ++ L.dropWhile isPySpace :=
    (List.takeWhile_append_dropWhile isPySpace L).symm
  have hM2 : L.dropWhile isPySpace =
      pyRStrip (L.dropWhile isPySpace) ++
        ((L.dropWhile isPySpace).reverse.takeWhile isPySpace).reverse := by
    rw [pyRStrip]
    conv_lhs => rw [← List.reverse_reverse (L.dropWhile isPySpace)]
    rw [← List.reverse_append, List.takeWhile_append_dropWhile]
  have hps : pyStrip L = pyRStrip (L.dropWhile isPySpace) := rfl
  rw [List.isPrefixOf_iff_prefix] at h
  obtain ⟨t, ht⟩ := h
  refine ⟨L.takeWhile isPySpace,
    t ++ ((L.dropWhile isPySpace).reverse.takeWhile isPySpace).reverse, ?_, ?_⟩
  · have hMfin : L.dropWhile isPySpace = '-' :: '-' ::
        (t ++ ((L.dropWhile isPySpace).reverse.takeWhile isPySpace).reverse) := by
      conv_lhs => rw [hM2]
      rw [← hps, ← ht]
      rfl
    conv_lhs => rw [hsplit, hMfin]
  · intro c hc
    exact List.mem_takeWhile_imp hc

theorem dropWhile_append_of_all (p : Char → Bool) (a b : List Char)
    (h : ∀ c ∈ a, p c = true) :
    (a ++ b).dropWhile p = b.dropWhile p := by
  induction a with
  | nil => rfl
  | cons c a' ih =>
    rw [List.cons_append, List.dropWhile_cons,
      if_pos (h c (List.mem_cons_self c a'))]
    exact ih (fun c' hc' => h c' (List.mem_cons_of_mem c hc'))

theorem pyRStrip_append_spaces (u sfx : List Char)
    (h : ∀ c ∈ sfx, isPySpace c = true) :
    pyRStrip (u ++ sfx) = pyRStrip u := by
  rw [pyRStrip, pyRStrip, List.reverse_append,
    dropWhile_append_of_all isPySpace sfx.reverse u.reverse
      (fun c hc => h c (List.mem_reverse.mp hc))]

theorem pyStrip_append_spaces (u sfx : List Char)
    (h : ∀ c ∈ sfx, isPySpace c = true) :
    pyStrip (u ++ sfx) = pyStrip u := by
  rw [pyStrip, pyStrip, pyLStrip, pyLStrip, List.dropWhile_append]
  by_cases he : (u.dropWhile isPySpace).isEmpty
  · rw [if_pos he]
    have h1 : sfx.dropWhile isPySpace = [] := List.dropWhile_eq_nil_iff.mpr h
    have h2 : u.dropWhile isPySpace = [] := by rwa [List.isEmpty_iff] at he
    rw [h1, h2]
  · rw [if_neg he]
    exact pyRStrip_append_spaces _ _ h

theorem pyStrip_all_space (ws : List Char) (h : ∀ c ∈ ws, isPySpace c = true) :
    pyStrip ws = [] := by
  rw [pyStrip, pyLStrip, List.dropWhile_eq_nil_iff.mpr h]
  rfl

/-! ## C5 -/

/-- C5 counterexample: the claim states that with exactly one footer
line, `filter_footer` returns everything strictly before that line,
trimmed.  On `"x--y\n--footer"` the unique candidate is the second line,
but the code cuts at the first occurrence of the substring `--` anywhere
in the text (`partition("--")`), yielding `"x"` instead of the claim's
`"x--y"` (the spec-side reading, `filterFooterSpec`). -/
theorem c5_counterexample :
    filter_footer "x--y\n--footer".data = "x".data ∧
    filterFooterSpec "x--y\n--footer".data = "x--y".data ∧
    filter_footer "x--y\n--footer".data ≠
      filterFooterSpec "x--y\n--footer".data := by
  refine ⟨rfl, rfl, by decide⟩

/-- C5 (amended): with zero or several candidate footer lines the text is
returned unchanged; with exactly one candidate line, and provided the
substring `--` does not occur in any earlier line, the result is
everything strictly before the footer line, trimmed.  (The
counterexample shows the extra proviso is necessary: an earlier mid-line
`--` makes the cut happen there instead.) -/
theorem c5_filter_footer_amended (text : List Char) :
    ((((splitOnChar '\n' text).filter
        (fun line => ['-', '-'].isPrefixOf (pyStrip line))).length ≠ 1) →
      filter_footer text = text) ∧
    (∀ pre L post,
      splitOnChar '\n' text = pre ++ L :: post →
      (['-', '-'].isPrefixOf (pyStrip L)) = true →
      (∀ l ∈ pre, (['-', '-'].isPrefixOf (pyStrip l)) = false) →
      (∀ l ∈ post, (['-', '-'].isPrefixOf (pyStrip l)) = false) →
      (∀ l ∈ pre, hasSub2 '-' '-' l = false) →
      filter_footer text = pyStrip (joinWithChar '\n' pre)) := by
  constructor
  · intro hne
    rw [filter_footer]
    rw [if_pos hne]
  · intro pre L post hsplit hL hpreF hpostF hpreSub
    have hpre0 : pre.filter (fun line => ['-', '-'].isPrefixOf (pyStrip line)) = [] :=
      List.filter_eq_nil_iff.mpr (fun a ha => by rw [hpreF a ha]; exact Bool.false_ne_true)
    have hpost0 : post.filter (fun line => ['-', '-'].isPrefixOf (pyStrip line)) = [] :=
      List.filter_eq_nil_iff.mpr (fun a ha => by rw [hpostF a ha]; exact Bool.false_ne_true)
    have hfilter : (splitOnChar '\n' text).filter
        (fun line => ['-', '-'].isPrefixOf (pyStrip line)) = [L] := by
      rw [hsplit, List.filter_append, hpre0, List.filter_cons, if_pos hL, hpost0]
      rfl
    rw [filter_footer]
    rw [hfilter]
    rw [if_neg (by simp)]
    obtain ⟨ws, mid, hLdec, hws⟩ := footer_line_decomp L hL
    have htext : text = joinWithChar '\n' (pre ++ L :: post) := by
      rw [← hsplit, joinWithChar_splitOnChar]
    obtain ⟨tail, htail⟩ : ∃ tail, joinWithChar '\n' (L :: post) = L ++ tail := by
      rcases post with _ | ⟨p0, post'⟩
      · exact ⟨[], by rw [joinWithChar, List.append_nil]⟩
      · exact ⟨'\n' :: joinWithChar '\n' (p0 :: post'), by rw [joinWithChar_cons₂]⟩
    by_cases hpre : pre = []
    · subst hpre
      have htext2 : text = ws ++ '-' :: '-' :: (mid ++ tail) := by
        rw [htext, List.nil_append, htail, hLdec]
        simp [List.append_assoc]
      have hsub : hasSub2 '-' '-' (ws ++ ['-']) = false := by
        apply hasSub2_append_false '-' '-' ws ['-']
        · exact hasSub2_false_of_no_x '-' '-' ws (all_space_no_dash ws hws)
        · rfl
        · intro c hc
          exact all_space_no_dash ws hws c (List.mem_of_mem_getLast? hc)
      rw [htext2, beforeFirst2_append '-' '-' ws (mid ++ tail) hsub,
        pyStrip_all_space ws hws]
      rfl
    · have htext2 : text =
          (joinWithChar '\n' pre ++ '\n' :: ws) ++ '-' :: '-' :: (mid ++ tail) := by
        rw [htext, join_append_of_ne_nil '\n' pre (L :: post) hpre
          (by intro h0; cases h0), htail, hLdec]
        simp [List.append_assoc]
      have hnlws : ∀ c ∈ '\n' :: ws, isPySpace c = true := by
        intro c hc
        rcases List.mem_cons.mp hc with h' | h'
        · subst h'
          decide
        · exact hws c h'
      have hsub : hasSub2 '-' '-' ((joinWithChar '\n' pre ++ '\n' :: ws) ++ ['-']) = false := by
        apply hasSub2_append_false '-' '-' _ ['-']
        · apply hasSub2_append_false₂ '-' '-' (joinWithChar '\n' pre) ('\n' :: ws)
          · exact hasSub2_join_false '-' pre (by decide) hpreSub
          · rw [hasSub2_cons]
            have hnl : decide ('\n' = '-') = false := by decide
            rw [hnl, Bool.false_and, Bool.false_or]
            exact hasSub2_false_of_no_x '-' '-' ws (all_space_no_dash ws hws)
          · rw [List.head?_cons]
            intro hc0
            injection hc0 with hc0
            exact absurd hc0 (by decide)
        · rfl
        · intro c hc
          rw [List.getLast?_append_of_ne_nil _ (by intro h0; cases h0)] at hc
          exact all_space_no_dash ('\n' :: ws) hnlws c (List.mem_of_mem_getLast? hc)
      rw [htext2, beforeFirst2_append '-' '-' _ (mid ++ tail) hsub]
      exact pyStrip_append_spaces _ ('\n' :: ws) hnlws

/-- Witness for C5 (amended): the specification's scenario
`"Hello\n--\nSent from my phone"` filters to `"Hello"`. -/
theorem c5_filter_footer_amended_witness :
    filter_footer "Hello\n--\nSent from my phone".data = "Hello".data := by
  have h := (c5_filter_footer_amended "Hello\n--\nSent from my phone".data).2
    ["Hello".data] "--".data ["Sent from my phone".data]
    rfl rfl (by decide) (by decide) (by decide)
  exact h

end EmailMirror
